import Mathlib

/-!
Verification of the numeric core of the FTRT Cosmic Evolution Explorer.

This file gives a shallow embedding, in Lean, of the statistics, correlation,
date-conversion and tidal-force (FTRT) functions of the repository, and proves
or refutes the specification claims about them.

Modelling conventions, used throughout:

* JavaScript numbers are modelled as exact real numbers.  Where a code path
  can produce an IEEE special value (Infinity, -Infinity, NaN) through a
  division by zero or a square root, the computation is carried out in the
  type JSNum below, which adjoins those three special values to the reals
  and implements the IEEE rules for them; a plain real is used only on code
  paths that are guarded against division by zero in the source.
* JavaScript Date objects are modelled at day resolution by a CalDate record
  of year, month (1-12) and day, matching the fields read and written by the
  date helpers (getFullYear / getMonth()+1 / getDate).
* Math.floor(x / n) on integer quantities is floor division, Int.fdiv.
* A thrown exception is modelled by Except.error; an undefined property
  access (for example indexing an array with NaN) also throws in JavaScript
  (TypeError on the subsequent member access) and is modelled the same way.
* A JavaScript array read out of bounds yields undefined, which contaminates
  arithmetic to NaN; where relevant this is modelled by Option, with none
  standing for that NaN outcome.
-/

/-! ## Date helpers (src/utils/dateHelpers.js) -/

/-- A calendar date at day resolution: the triple read from a JS Date by
getFullYear, getMonth()+1 and getDate. -/
structure CalDate where
  year : ℤ
  month : ℤ
  day : ℤ
deriving DecidableEq

/-- Embedding of dateToJulianDay: the proleptic Gregorian Julian Day Number
formula, with Math.floor division rendered as Int.fdiv. -/
def dateToJulianDay (d : CalDate) : ℤ :=
  let a := (14 - d.month).fdiv 12
  let y := d.year + 4800 - a
  let m := d.month + 12 * a - 3
  d.day + (153 * m + 2).fdiv 5 + 365 * y + y.fdiv 4 - y.fdiv 100 + y.fdiv 400 - 32045

/-- Embedding of julianDayToDate.  The source builds new Date(year, month-1, day);
the record collects exactly the year, month and day it passes there. -/
def julianDayToDate (jd : ℤ) : CalDate :=
  let a := jd + 32044
  let b := (4 * a + 3).fdiv 146097
  let c := a - (146097 * b).fdiv 4
  let d := (4 * c + 3).fdiv 1461
  let e := c - (1461 * d).fdiv 4
  let m := (5 * e + 2).fdiv 153
  { year := 100 * b + d - 4800 + m.fdiv 10,
    month := m + 3 - 12 * (m.fdiv 10),
    day := e - (153 * m + 2).fdiv 5 + 1 }

/-- Proleptic Gregorian leap year rule. -/
def isLeapYear (y : ℤ) : Prop := (y % 4 = 0 ∧ y % 100 ≠ 0) ∨ y % 400 = 0

instance : DecidablePred isLeapYear := fun y => by unfold isLeapYear; infer_instance

/-- Number of days of month m in year y. -/
def daysInMonth (y m : ℤ) : ℤ :=
  if m = 2 then (if isLeapYear y then 29 else 28)
  else if m = 4 ∨ m = 6 ∨ m = 9 ∨ m = 11 then 30 else 31

/-- A valid proleptic Gregorian calendar date. -/
def isValidDate (d : CalDate) : Prop :=
  1 ≤ d.month ∧ d.month ≤ 12 ∧ 1 ≤ d.day ∧ d.day ≤ daysInMonth d.year d.month

instance : DecidablePred isValidDate := fun d => by unfold isValidDate; infer_instance

/-- Within one century, 1461-day quadrennium arithmetic recovers the year
index s from the day count 365 s + s/4 + gD, where gD is the day offset
inside the (March-first) year. -/
theorem yearInCentury (s gD : ℤ) (hs1 : s ≤ 99)
    (hg0 : 0 ≤ gD) (hg1 : gD ≤ 365) (hg2 : gD = 365 → s % 4 = 3) (hs0 : 0 ≤ s) :
    (4 * (365 * s + s / 4 + gD) + 3) / 1461 = s ∧
      365 * s + s / 4 + gD - 1461 * s / 4 = gD := by
  omega

/-- Within one 400-year cycle, the 146097-day arithmetic recovers the century
index u from the day count 36524 u + S. -/
theorem centuryInCycle (u S : ℤ) (hu0 : 0 ≤ u) (hu1 : u ≤ 3)
    (hS0 : 0 ≤ S) (hS1 : S ≤ 36524) (hS2 : S = 36524 → u = 3) :
    (4 * (36524 * u + S) + 3) / 146097 = u := by
  omega

set_option maxHeartbeats 1000000 in
/-- The 153-day five-month cycle recovers the shifted month index M from the
day-of-year offset (153 M + 2)/5 + D - 1, for valid day numbers D. -/
theorem monthStep (M D : ℤ) (hM0 : 0 ≤ M) (hM1 : M ≤ 11) (hD : 1 ≤ D)
    (h31 : D ≤ 31)
    (h30 : M = 1 ∨ M = 3 ∨ M = 6 ∨ M = 8 → D ≤ 30)
    (hfeb : M = 11 → D ≤ 29) :
    (5 * ((153 * M + 2) / 5 + D - 1) + 2) / 153 = M := by
  interval_cases M <;> omega

/-- Reassembly of the original year and month from the cycle decomposition. -/
theorem finalAssembly (year month a y q u s r M : ℤ)
    (ha2 : (month ≤ 2 ∧ a = 1) ∨ (3 ≤ month ∧ a = 0))
    (hy : y = year + 4800 - a)
    (hMd : M = month + 12 * a - 3)
    (hyr : y = 400 * q + r) (hr0 : 0 ≤ r) (hr1 : r < 400)
    (hrs : r = 100 * u + s) (hu0 : 0 ≤ u) (hu1 : u ≤ 3) (hs0 : 0 ≤ s) (hs1 : s ≤ 99)
    (h1 : 1 ≤ month) (h2 : month ≤ 12) :
    100 * (4 * q + u) + s - 4800 + M / 10 = year ∧ M + 3 - 12 * (M / 10) = month := by
  omega

/-- Unfolding lemma for julianDayToDate against named intermediate values,
mirroring the local constants of the source. -/
theorem julianDayToDate_spec (jd b c d e m : ℤ)
    (hb : b = (4 * (jd + 32044) + 3).fdiv 146097)
    (hc : c = jd + 32044 - (146097 * b).fdiv 4)
    (hd : d = (4 * c + 3).fdiv 1461)
    (he : e = c - (1461 * d).fdiv 4)
    (hm : m = (5 * e + 2).fdiv 153) :
    julianDayToDate jd =
      ⟨100 * b + d - 4800 + m.fdiv 10, m + 3 - 12 * (m.fdiv 10),
        e - (153 * m + 2).fdiv 5 + 1⟩ := by
  subst hm he hd hc hb
  rfl

set_option maxHeartbeats 1000000 in
/-- C3: for every valid calendar date d at day resolution,
julianDayToDate (dateToJulianDay d) = d (same year, month and day). -/
theorem C3_julianDay_roundtrip (dt : CalDate) (h : isValidDate dt) :
    julianDayToDate (dateToJulianDay dt) = dt := by
  obtain ⟨year, month, day⟩ := dt
  obtain ⟨h1, h2, h3, h4⟩ := h
  simp only [daysInMonth, isLeapYear] at h1 h2 h3 h4
  dsimp only at h1 h2 h3 h4
  -- names for the forward computation, as in dateToJulianDay
  obtain ⟨a, ha⟩ : ∃ a : ℤ, a = (14 - month).fdiv 12 := ⟨_, rfl⟩
  have ha2 : (month ≤ 2 ∧ a = 1) ∨ (3 ≤ month ∧ a = 0) := by
    rw [Int.fdiv_eq_ediv _ (by norm_num)] at ha
    omega
  obtain ⟨y, hy⟩ : ∃ y : ℤ, y = year + 4800 - a := ⟨_, rfl⟩
  obtain ⟨M, hMd⟩ : ∃ M : ℤ, M = month + 12 * a - 3 := ⟨_, rfl⟩
  have hM : 0 ≤ M ∧ M ≤ 11 := by omega
  -- decompose y: 400-year cycle q, century-in-cycle u, year-in-century s
  obtain ⟨q, hq⟩ : ∃ q : ℤ, q = y / 400 := ⟨_, rfl⟩
  obtain ⟨r, hr⟩ : ∃ r : ℤ, r = y % 400 := ⟨_, rfl⟩
  have hyr : y = 400 * q + r ∧ 0 ≤ r ∧ r < 400 := by omega
  obtain ⟨u, hu⟩ : ∃ u : ℤ, u = r / 100 := ⟨_, rfl⟩
  obtain ⟨s, hs⟩ : ∃ s : ℤ, s = r % 100 := ⟨_, rfl⟩
  have hrs : r = 100 * u + s ∧ 0 ≤ u ∧ u ≤ 3 ∧ 0 ≤ s ∧ s ≤ 99 := by omega
  clear hq hr hu hs
  obtain ⟨g, hg⟩ : ∃ g : ℤ, g = (153 * M + 2).fdiv 5 := ⟨_, rfl⟩
  have hg5 : g = (153 * M + 2) / 5 := by
    rw [hg, Int.fdiv_eq_ediv _ (by norm_num)]
  have hfeb2 : M = 11 → day ≤ 29 ∧ (day = 29 → (s + 1) % 4 = 0 ∧ (s ≠ 99 ∨ u = 3)) := by
    intro hM11
    split at h4
    · split at h4 <;> omega
    · omega
  have h30 : M = 1 ∨ M = 3 ∨ M = 6 ∨ M = 8 → day ≤ 30 := by
    intro hcase
    split at h4
    · omega
    · split at h4 <;> omega
  have h31 : day ≤ 31 := by
    split at h4
    · split at h4 <;> omega
    · split at h4 <;> omega
  clear h4
  obtain ⟨gD, hgD⟩ : ∃ gD : ℤ, gD = g + day - 1 := ⟨_, rfl⟩
  have hgDb : 0 ≤ gD ∧ gD ≤ 365 ∧ (gD = 365 → s % 4 = 3 ∧ (s ≠ 99 ∨ u = 3)) := by
    refine ⟨by omega, by omega, by omega⟩
  obtain ⟨S, hS⟩ : ∃ S : ℤ, S = 365 * s + s / 4 + gD := ⟨_, rfl⟩
  have hSb : 0 ≤ S ∧ S ≤ 36524 ∧ (S = 36524 → u = 3) := by
    refine ⟨by omega, by omega, by omega⟩
  have hy400 : y / 400 = q := by omega
  have hy100 : y / 100 = 4 * q + u := by omega
  have hy4 : y / 4 = 100 * q + 25 * u + s / 4 := by omega
  -- the forward value
  have hA : dateToJulianDay ⟨year, month, day⟩ + 32044 = 146097 * q + (36524 * u + S) := by
    dsimp only [dateToJulianDay]
    rw [← ha, ← hy, ← hMd, ← hg,
      Int.fdiv_eq_ediv _ (by norm_num : (0:ℤ) ≤ 4),
      Int.fdiv_eq_ediv _ (by norm_num : (0:ℤ) ≤ 100),
      Int.fdiv_eq_ediv _ (by norm_num : (0:ℤ) ≤ 400)]
    omega
  -- now evaluate the inverse
  obtain ⟨J, hJ⟩ : ∃ J : ℤ, J = dateToJulianDay ⟨year, month, day⟩ := ⟨_, rfl⟩
  rw [← hJ] at hA ⊢
  obtain ⟨b, hb_def⟩ : ∃ b : ℤ, b = (4 * (J + 32044) + 3).fdiv 146097 := ⟨_, rfl⟩
  obtain ⟨c, hc_def⟩ : ∃ c : ℤ, c = J + 32044 - (146097 * b).fdiv 4 := ⟨_, rfl⟩
  obtain ⟨d, hd_def⟩ : ∃ d : ℤ, d = (4 * c + 3).fdiv 1461 := ⟨_, rfl⟩
  obtain ⟨e, he_def⟩ : ∃ e : ℤ, e = c - (1461 * d).fdiv 4 := ⟨_, rfl⟩
  obtain ⟨m, hm_def⟩ : ∃ m : ℤ, m = (5 * e + 2).fdiv 153 := ⟨_, rfl⟩
  rw [julianDayToDate_spec J b c d e m hb_def hc_def hd_def he_def hm_def]
  have hb : b = 4 * q + u := by
    rw [hb_def, Int.fdiv_eq_ediv _ (by norm_num), hA]
    have hcc := centuryInCycle u S hrs.2.1 hrs.2.2.1 hSb.1 hSb.2.1 hSb.2.2
    omega
  have hc : c = S := by
    rw [hc_def, hb, Int.fdiv_eq_ediv _ (by norm_num)]
    omega
  have hyc := yearInCentury s gD hrs.2.2.2.2 hgDb.1 hgDb.2.1
    (fun hx => (hgDb.2.2 hx).1) hrs.2.2.2.1
  have hd : d = s := by
    rw [hd_def, hc, Int.fdiv_eq_ediv _ (by norm_num), hS]
    exact hyc.1
  have he : e = gD := by
    rw [he_def, hc, hd, Int.fdiv_eq_ediv _ (by norm_num), hS]
    omega
  have hm : m = M := by
    rw [hm_def, he, hgD, hg5, Int.fdiv_eq_ediv _ (by norm_num)]
    exact monthStep M day hM.1 hM.2 h3 h31 h30 (fun hx => (hfeb2 hx).1)
  have hmfdiv : m.fdiv 10 = M / 10 := by
    rw [hm, Int.fdiv_eq_ediv _ (by norm_num)]
  have hg153 : (153 * m + 2).fdiv 5 = g := by rw [hm, ← hg]
  have hasm := finalAssembly year month a y q u s r M ha2 hy hMd hyr.1 hyr.2.1
    hyr.2.2 hrs.1 hrs.2.1 hrs.2.2.1 hrs.2.2.2.1 hrs.2.2.2.2 h1 h2
  simp only [CalDate.mk.injEq]
  refine ⟨?_, ?_, ?_⟩
  · rw [hmfdiv, hb, hd]
    exact hasm.1
  · rw [hmfdiv, hm]
    exact hasm.2
  · rw [hg153, he, hgD]
    ring

/-- Witness for C3 at the concrete leap-day date 2024-02-29. -/
theorem C3_julianDay_roundtrip_witness :
    isValidDate ⟨2024, 2, 29⟩ ∧
      julianDayToDate (dateToJulianDay ⟨2024, 2, 29⟩) = ⟨2024, 2, 29⟩ :=
  ⟨by decide, C3_julianDay_roundtrip ⟨2024, 2, 29⟩ (by decide)⟩

/-! ## JS special values -/

/-- A JavaScript number in the idealized exact-arithmetic model: a real, or
one of the IEEE special values Infinity, -Infinity, NaN. -/
inductive JSNum where
  | fin : ℝ → JSNum
  | pinf : JSNum
  | ninf : JSNum
  | nan : JSNum

/-- IEEE division on idealized reals.  The sign of a zero is not modelled;
no statement in this file depends on it. -/
noncomputable def jsDiv : JSNum → JSNum → JSNum
  | .nan, _ => .nan
  | _, .nan => .nan
  | .fin a, .fin b =>
      if b = 0 then (if a = 0 then .nan else if 0 < a then .pinf else .ninf)
      else .fin (a / b)
  | .fin _, .pinf => .fin 0
  | .fin _, .ninf => .fin 0
  | .pinf, .fin b => if 0 ≤ b then .pinf else .ninf
  | .ninf, .fin b => if 0 ≤ b then .ninf else .pinf
  | .pinf, .pinf => .nan
  | .pinf, .ninf => .nan
  | .ninf, .pinf => .nan
  | .ninf, .ninf => .nan

/-- IEEE multiplication on idealized reals. -/
noncomputable def jsMul : JSNum → JSNum → JSNum
  | .nan, _ => .nan
  | _, .nan => .nan
  | .fin a, .fin b => .fin (a * b)
  | .fin a, .pinf => if a = 0 then .nan else if 0 < a then .pinf else .ninf
  | .pinf, .fin b => if b = 0 then .nan else if 0 < b then .pinf else .ninf
  | .fin a, .ninf => if a = 0 then .nan else if 0 < a then .ninf else .pinf
  | .ninf, .fin b => if b = 0 then .nan else if 0 < b then .ninf else .pinf
  | .pinf, .pinf => .pinf
  | .ninf, .ninf => .pinf
  | .pinf, .ninf => .ninf
  | .ninf, .pinf => .ninf

/-- Math.sqrt under the IEEE rules. -/
noncomputable def jsSqrt : JSNum → JSNum
  | .fin a => if a < 0 then .nan else .fin (Real.sqrt a)
  | .pinf => .pinf
  | .ninf => .nan
  | .nan => .nan

/-! ## Statistics utilities (statistics file of the repository) -/

namespace Stats

/-- Embedding of mean: returns 0 on empty input, else sum divided by length. -/
noncomputable def mean (data : List ℝ) : ℝ :=
  if data.length = 0 then 0 else data.sum / (data.length : ℝ)

/-- Embedding of standardDeviation.  The final expression
Math.sqrt(mean(squareDiffs) * (data.length / divisor)) is computed in JSNum
because the division data.length / divisor is unguarded: in sample mode with a
single data point the divisor is 0 and the JS result is NaN. -/
noncomputable def standardDeviation (data : List ℝ) (sample : Bool) : JSNum :=
  if data.length = 0 then .fin 0 else
  let avg := mean data
  let squareDiffs := data.map (fun val => (val - avg) ^ 2)
  let divisor : ℝ := if sample then (data.length : ℝ) - 1 else (data.length : ℝ)
  jsSqrt (jsMul (.fin (mean squareDiffs)) (jsDiv (.fin (data.length : ℝ)) (.fin divisor)))

/-- A JavaScript array read: sorted[i] is undefined out of bounds, modelled
as none. -/
def jsGet (l : List ℝ) (i : ℤ) : Option ℝ :=
  if i < 0 then none else l.get? i.toNat

/-- Embedding of percentile.  The interpolation
sorted[lower] * (1 - weight) + sorted[upper] * weight yields NaN (none) as
soon as either read is out of bounds, because undefined contaminates every
JS arithmetic operation including multiplication by zero. -/
noncomputable def percentile (data : List ℝ) (p : ℝ) : Option ℝ :=
  if data.length = 0 then some 0 else
  let sorted := List.insertionSort (fun a b => a ≤ b) data
  let index : ℝ := (p / 100) * ((data.length : ℝ) - 1)
  let lower : ℤ := ⌊index⌋
  let upper : ℤ := ⌈index⌉
  let weight : ℝ := index - (lower : ℝ)
  match jsGet sorted lower, jsGet sorted upper with
  | some lo, some hi => some (lo * (1 - weight) + hi * weight)
  | _, _ => none

/-- Embedding of normalize.  Math.min()/Math.max() of an empty spread are
infinite in JS; on the empty list both the JS code and this embedding return
the empty list, so defaulting the extrema to 0 is extensionally faithful. -/
noncomputable def normalize (data : List ℝ) : List ℝ :=
  let mn := (data.min?).getD 0
  let mx := (data.max?).getD 0
  let range := mx - mn
  if range = 0 then data.map (fun _ => (0.5 : ℝ))
  else data.map (fun val => (val - mn) / range)

/-- One histogram bin: min/max bounds, a count and the collected values. -/
structure Bin where
  min : ℝ
  max : ℝ
  count : ℕ
  values : List ℝ

/-- Embedding of histogram.  When binWidth is 0 (constant data), the JS index
Math.min(Math.floor((val - min)/binWidth), bins - 1) is NaN, histogram[NaN]
is undefined, and undefined.count++ throws a TypeError; an out-of-range index
throws the same way.  Both are modelled as Except.error. -/
noncomputable def histogram (data : List ℝ) (bins : ℕ) : Except Unit (List Bin) :=
  let mn := (data.min?).getD 0
  let mx := (data.max?).getD 0
  let binWidth : ℝ := (mx - mn) / (bins : ℝ)
  let init : List Bin := (List.range bins).map (fun i =>
    { min := mn + (i : ℝ) * binWidth, max := mn + ((i : ℝ) + 1) * binWidth,
      count := 0, values := [] })
  data.foldlM (fun acc val =>
    if binWidth = 0 then Except.error () else
    let binIndex : ℤ := min ⌊(val - mn) / binWidth⌋ ((bins : ℤ) - 1)
    if h : 0 ≤ binIndex ∧ binIndex.toNat < acc.length then
      Except.ok (acc.set binIndex.toNat
        (let b := acc.get ⟨binIndex.toNat, h.2⟩
         { min := b.min, max := b.max, count := b.count + 1, values := b.values ++ [val] }))
    else Except.error ()) init

theorem mean_replicate (n : ℕ) (c : ℝ) (hn : n ≠ 0) :
    mean (List.replicate n c) = c := by
  simp [mean, hn, List.sum_replicate, nsmul_eq_mul]

end Stats


/-- List minimum facts specialised to the reals. -/
theorem min?_eq_some_real {data : List ℝ} {mn : ℝ} :
    data.min? = some mn ↔ mn ∈ data ∧ ∀ b ∈ data, mn ≤ b :=
  @List.min?_eq_some_iff ℝ mn _ _ ⟨fun h1 h2 => le_antisymm h1 h2⟩
    (fun a => le_refl a) (fun a b => min_choice a b) (fun _ _ _ => le_min_iff) data

theorem max?_eq_some_real {data : List ℝ} {mx : ℝ} :
    data.max? = some mx ↔ mx ∈ data ∧ ∀ b ∈ data, b ≤ mx :=
  @List.max?_eq_some_iff ℝ mx _ _ ⟨fun h1 h2 => le_antisymm h1 h2⟩
    (fun a => le_refl a) (fun a b => max_choice a b) (fun _ _ _ => max_le_iff) data

/-- C10: normalize maps a constant non-empty array to all 0.5, and otherwise
maps each value v to (v - min)/(max - min), sending the minimum to 0 and the
maximum to 1. -/
theorem C10_normalize (data : List ℝ) :
    (data ≠ [] → (∀ v ∈ data, ∀ w ∈ data, v = w) →
      Stats.normalize data = data.map (fun _ => (0.5 : ℝ))) ∧
    (∀ mn mx, data.min? = some mn → data.max? = some mx → mn ≠ mx →
      Stats.normalize data = data.map (fun val => (val - mn) / (mx - mn)) ∧
        (0 : ℝ) ∈ Stats.normalize data ∧ (1 : ℝ) ∈ Stats.normalize data) := by
  constructor
  · intro hne hconst
    obtain ⟨v, hv⟩ := List.exists_mem_of_ne_nil data hne
    have hmin : data.min? = some v := by
      rw [min?_eq_some_real]
      exact ⟨hv, fun b hb => le_of_eq (hconst v hv b hb)⟩
    have hmax : data.max? = some v := by
      rw [max?_eq_some_real]
      exact ⟨hv, fun b hb => le_of_eq (hconst b hb v hv)⟩
    unfold Stats.normalize
    rw [hmin, hmax]
    simp
  · intro mn mx hmin hmax hne
    have hmem : mn ∈ data ∧ ∀ b ∈ data, mn ≤ b := min?_eq_some_real.mp hmin
    have hmem2 : mx ∈ data ∧ ∀ b ∈ data, b ≤ mx := max?_eq_some_real.mp hmax
    have hrange : mx - mn ≠ 0 := sub_ne_zero_of_ne (Ne.symm hne)
    have heq : Stats.normalize data = data.map (fun val => (val - mn) / (mx - mn)) := by
      unfold Stats.normalize
      rw [hmin, hmax]
      simp [hrange]
    refine ⟨heq, ?_, ?_⟩
    · rw [heq]
      refine List.mem_map.mpr ⟨mn, hmem.1, by simp⟩
    · rw [heq]
      refine List.mem_map.mpr ⟨mx, hmem2.1, by simp [div_self hrange]⟩

/-- Witness for C10 at concrete inputs. -/
theorem C10_normalize_witness :
    Stats.normalize [(2:ℝ), 2] = [0.5, 0.5] ∧ Stats.normalize [(0:ℝ), 4] = [0, 1] := by
  constructor
  · have h := (C10_normalize [(2:ℝ), 2]).1 (by simp) (by intro v hv w hw; simp at hv hw; rw [hv, hw])
    rw [h]
    simp
  · have h := (C10_normalize [(0:ℝ), 4]).2 0 4 (by simp [List.min?]) (by simp [List.max?])
      (by norm_num)
    rw [h.1]
    norm_num

/-- C8 counterexample: a constant array of length 1 in sample mode gives NaN,
not 0 (divisor n - 1 = 0, and 0 * Infinity = NaN). -/
theorem C8_counterexample :
    Stats.standardDeviation [(5:ℝ)] true = JSNum.nan ∧
      Stats.standardDeviation [(5:ℝ)] true ≠ JSNum.fin 0 := by
  have h : Stats.standardDeviation [(5:ℝ)] true = JSNum.nan := by
    simp [Stats.standardDeviation, Stats.mean, jsDiv, jsMul, jsSqrt]
  exact ⟨h, by rw [h]; exact fun hc => JSNum.noConfusion hc⟩

/-- C8 amended: a constant array of length at least 2 has standard deviation
exactly 0 in both modes, and a singleton has population standard deviation 0
(sample mode on a singleton yields NaN, see the counterexample). -/
theorem C8_stdDev_constant (c : ℝ) (n : ℕ) (b : Bool) :
    (2 ≤ n → Stats.standardDeviation (List.replicate n c) b = JSNum.fin 0) ∧
      Stats.standardDeviation [c] false = JSNum.fin 0 := by
  constructor
  · intro hn
    have hne : n ≠ 0 := by omega
    have hm1 : Stats.mean (List.replicate n c) = c := Stats.mean_replicate n c hne
    have hmap : (List.replicate n c).map (fun val => (val - Stats.mean (List.replicate n c)) ^ 2)
        = List.replicate n 0 := by
      rw [hm1, List.map_replicate]
      simp
    have hm0 : Stats.mean (List.replicate n 0) = 0 := by
      rw [Stats.mean_replicate n 0 hne]
    have hcast : ((n:ℝ)) ≠ 0 := Nat.cast_ne_zero.mpr hne
    have hcast1 : ((n:ℝ)) - 1 ≠ 0 := by
      have h2 : (2:ℝ) ≤ (n:ℝ) := by exact_mod_cast hn
      intro hx
      nlinarith
    unfold Stats.standardDeviation
    rw [List.length_replicate]
    rw [if_neg hne]
    dsimp only
    rw [hmap, hm0]
    cases b
    · simp [jsDiv, jsMul, jsSqrt, hcast, Real.sqrt_zero]
    · simp [jsDiv, jsMul, jsSqrt, hcast1, Real.sqrt_zero]
  · simp [Stats.standardDeviation, Stats.mean, jsDiv, jsMul, jsSqrt]

/-- Witness for the amended C8 at n = 2, c = 5, sample mode. -/
theorem C8_stdDev_constant_witness :
    2 ≤ 2 ∧ Stats.standardDeviation (List.replicate 2 (5:ℝ)) true = JSNum.fin 0 :=
  ⟨le_refl 2, (C8_stdDev_constant 5 2 true).1 (le_refl 2)⟩

/-- C9: the code does not validate p; percentile([1,2], 150) silently
evaluates to NaN (modelled none) through an out-of-bounds read, instead of
failing with an InvalidArgument error. -/
theorem C9_percentile_no_validation : Stats.percentile [(1:ℝ), 2] 150 = none := by
  have harg : (150 / 100 : ℝ) * (2 - 1) = 3 / 2 := by norm_num
  have hf : ⌊(3 / 2 : ℝ)⌋ = (1 : ℤ) := by
    rw [Int.floor_eq_iff] <;> norm_num
  have hc : ⌈(3 / 2 : ℝ)⌉ = (2 : ℤ) := by
    rw [Int.ceil_eq_iff] <;> norm_num
  simp [Stats.percentile, Stats.jsGet, List.insertionSort, List.orderedInsert, harg, hf, hc]

/-- C4: histogram throws on a constant (zero-variance) array: the bin width
is 0, the computed bin index is NaN, and histogram[NaN].count++ dereferences
undefined.  The descriptive-statistics layer is therefore not exception-free. -/
theorem C4_histogram_constant_throws : Stats.histogram [(5:ℝ), 5] 10 = Except.error () := by
  simp [Stats.histogram, List.min?, List.max?, List.foldlM]
  norm_num
  rfl

/-! ## Correlation algorithms (correlations module of the repository) -/

namespace Corr

/-- Local mean helper of the correlations module (no empty-input guard).
Callers in the module only reach it with non-empty arrays, because
pearsonCorrelation validates lengths first. -/
noncomputable def mean (arr : List ℝ) : ℝ := arr.sum / (arr.length : ℝ)

/-- Arithmetic core of pearsonCorrelation, after the length guard.  The
source accumulates numerator and both denominators over i < n with
n = x.length; at every call site x and y have equal length, so zipping for
the numerator and mapping each list for its own denominator is the same
index range. -/
noncomputable def pearsonRaw (x y : List ℝ) : ℝ :=
  let meanX := mean x
  let meanY := mean y
  let numerator := ((x.zip y).map (fun p => (p.1 - meanX) * (p.2 - meanY))).sum
  let denomX := (x.map (fun a => (a - meanX) ^ 2)).sum
  let denomY := (y.map (fun b => (b - meanY) ^ 2)).sum
  if denomX = 0 ∨ denomY = 0 then 0 else numerator / Real.sqrt (denomX * denomY)

/-- Embedding of pearsonCorrelation: throws when the lengths differ or are
zero, else returns the coefficient. -/
noncomputable def pearsonCorrelation (x y : List ℝ) : Except String ℝ :=
  if x.length ≠ y.length ∨ x.length = 0 then
    Except.error "Arrays must be non-empty and of equal length"
  else Except.ok (pearsonRaw x y)

/-- One record of the crossCorrelation result array. -/
structure CCRec where
  lag : ℤ
  correlation : ℝ
  dataPoints : ℕ

/-- The lags -maxLag .. maxLag swept by the for loop. -/
def lagRange (maxLag : ℤ) : List ℤ :=
  (List.range (2 * maxLag + 1).toNat).map (fun i : ℕ => -maxLag + (i : ℤ))

/-- The shifted copy of y with null (none) filled in at the vacated edge,
mirroring shiftedY: slice bounds follow the JS clamping rules. -/
def shiftNulls (y : List ℝ) (lag : ℤ) : List (Option ℝ) :=
  if 0 < lag then
    List.replicate lag.toNat none ++ (y.take (y.length - lag.toNat)).map some
  else if lag < 0 then
    (y.drop (-lag).toNat).map some ++ List.replicate (-lag).toNat none
  else y.map some

/-- The surviving index-aligned pairs (x[i], shiftedY[i]) at the non-null
positions of shiftedY.  Every non-null position lies below x.length, so
truncation by zip drops only null positions. -/
def alignedPairs (x : List ℝ) (sy : List (Option ℝ)) : List (ℝ × ℝ) :=
  (x.zip sy).filterMap (fun p => p.2.map (fun b => (p.1, b)))

/-- Embedding of crossCorrelation.  The guard validX.length > 0 ensures the
inner pearsonCorrelation call cannot throw, so the coefficient is its
arithmetic core pearsonRaw applied to the surviving pairs. -/
noncomputable def crossCorrelation (x y : List ℝ) (maxLag : ℤ) : List CCRec :=
  (lagRange maxLag).filterMap (fun lag =>
    let pairs := alignedPairs x (shiftNulls y lag)
    if 0 < pairs.length then
      some { lag := lag,
             correlation := pearsonRaw (pairs.map Prod.fst) (pairs.map Prod.snd),
             dataPoints := pairs.length }
    else none)

theorem alignedPairs_map_some (x : List ℝ) (l : List ℝ) :
    alignedPairs x (l.map some) = x.zip l := by
  induction x generalizing l with
  | nil => simp [alignedPairs]
  | cons a x ih =>
    cases l with
    | nil => simp [alignedPairs]
    | cons b l =>
      simp only [alignedPairs, List.map_cons, List.zip_cons_cons, List.filterMap_cons] at *
      simp [ih l]

theorem alignedPairs_replicate_left (k : ℕ) (x : List ℝ) (sy : List (Option ℝ)) :
    alignedPairs x (List.replicate k none ++ sy) = alignedPairs (x.drop k) sy := by
  induction k generalizing x with
  | zero => simp
  | succ k ih =>
    cases x with
    | nil => simp [alignedPairs]
    | cons a x =>
      simp only [List.replicate_succ, List.cons_append, List.drop_succ_cons]
      simp only [alignedPairs, List.zip_cons_cons, List.filterMap_cons, Option.map_none]
      exact ih x

theorem alignedPairs_replicate_none (x : List ℝ) (k : ℕ) :
    alignedPairs x (List.replicate k none) = [] := by
  have h := alignedPairs_replicate_left k x []
  simpa [alignedPairs] using h

theorem alignedPairs_map_some_append (l : List ℝ) (x : List ℝ) (rest : List (Option ℝ)) :
    alignedPairs x (l.map some ++ rest) =
      (x.take l.length).zip l ++ alignedPairs (x.drop l.length) rest := by
  induction l generalizing x with
  | nil => simp
  | cons b l ih =>
    cases x with
    | nil => simp [alignedPairs]
    | cons a x =>
      simp only [List.map_cons, List.cons_append, List.length_cons, List.take_succ_cons,
        List.drop_succ_cons]
      simp only [alignedPairs, List.zip_cons_cons, List.filterMap_cons, Option.map_some]
      simp only [alignedPairs] at ih
      simp [ih x]

/-- What the null-shift construction aligns: for nonnegative lag, x with its
first lag entries dropped against a prefix of y; for negative lag, a prefix
of x against y with the first |lag| entries dropped. -/
theorem alignedPairs_shift (x y : List ℝ) (lag : ℤ) (hlen : x.length = y.length) :
    alignedPairs x (shiftNulls y lag) =
      if 0 ≤ lag then (x.drop lag.toNat).zip (y.take (y.length - lag.toNat))
      else (x.take (x.length - (-lag).toNat)).zip (y.drop (-lag).toNat) := by
  unfold shiftNulls
  rcases lt_trichotomy lag 0 with hneg | hzero | hpos
  · rw [if_neg (by omega), if_pos hneg, if_neg (by omega)]
    rw [alignedPairs_map_some_append, alignedPairs_replicate_none, List.append_nil,
      List.length_drop, hlen]
  · subst hzero
    simp [alignedPairs_map_some]
  · rw [if_pos hpos, if_pos (by omega)]
    rw [alignedPairs_replicate_left, alignedPairs_map_some]

theorem alignedPairs_shift_length (x y : List ℝ) (lag : ℤ) (hlen : x.length = y.length) :
    (alignedPairs x (shiftNulls y lag)).length = x.length - lag.natAbs := by
  rw [alignedPairs_shift x y lag hlen]
  split
  · simp only [List.length_zip, List.length_drop, List.length_take]
    omega
  · simp only [List.length_zip, List.length_take, List.length_drop]
    omega

theorem mean_of_const (l : List ℝ) (c : ℝ) (hne : l.length ≠ 0)
    (hc : ∀ v ∈ l, v = c) : mean l = c := by
  rw [List.eq_replicate_of_mem hc, mean]
  simp only [List.sum_replicate, List.length_replicate, nsmul_eq_mul]
  field_simp

theorem denom_zero_of_const (l : List ℝ) (c : ℝ) (hne : l.length ≠ 0)
    (hc : ∀ v ∈ l, v = c) :
    (l.map (fun a => (a - mean l) ^ 2)).sum = 0 := by
  rw [mean_of_const l c hne hc]
  have : l.map (fun a => (a - c) ^ 2) = List.replicate l.length 0 := by
    rw [List.eq_replicate_of_mem hc, List.map_replicate]
    simp
  rw [this]
  simp

theorem sum_sq_eq_zero_iff (l : List ℝ) (m : ℝ) :
    (l.map (fun a => (a - m) ^ 2)).sum = 0 ↔ ∀ v ∈ l, v = m := by
  induction l with
  | nil => simp
  | cons a l ih =>
    simp only [List.map_cons, List.sum_cons, List.mem_cons]
    constructor
    · intro h
      have h1 : (0:ℝ) ≤ (a - m) ^ 2 := sq_nonneg _
      have h2 : (0:ℝ) ≤ (l.map (fun a => (a - m) ^ 2)).sum := by
        apply List.sum_nonneg
        intro z hz
        obtain ⟨w, hw, hwz⟩ := List.mem_map.mp hz
        rw [← hwz]
        exact sq_nonneg _
      have ha : (a - m) ^ 2 = 0 := by linarith
      have ha2 : a = m := by nlinarith [sq_nonneg (a - m)]
      intro v hv
      rcases hv with h | h
      · exact h ▸ ha2
      · exact (ih.mp (by linarith)) v h
    · intro h
      have ha : a = m := h a (Or.inl rfl)
      have hl : ∀ v ∈ l, v = m := fun v hv => h v (Or.inr hv)
      rw [ha]
      simp [ih.mpr hl]

theorem zip_self (x : List ℝ) : x.zip x = x.map (fun a => (a, a)) := by
  induction x with
  | nil => rfl
  | cons a l ih => simp [List.zip_cons_cons, ih]

end Corr

/-- Shared lemma: with matching nonzero lengths and a zero-variance input,
the coefficient is the guarded 0. -/
theorem pearson_const_zero (x y : List ℝ) (h1 : x.length = y.length)
    (h2 : x.length ≠ 0)
    (h3 : (∃ c, ∀ v ∈ x, v = c) ∨ (∃ c, ∀ v ∈ y, v = c)) :
    Corr.pearsonCorrelation x y = Except.ok 0 := by
  unfold Corr.pearsonCorrelation
  rw [if_neg (by push_neg; exact ⟨h1, h2⟩)]
  unfold Corr.pearsonRaw
  rcases h3 with ⟨c, hc⟩ | ⟨c, hc⟩
  · rw [if_pos (Or.inl (Corr.denom_zero_of_const x c h2 hc))]
  · rw [if_pos (Or.inr (Corr.denom_zero_of_const y c (h1 ▸ h2) hc))]

/-- C1: pearsonCorrelation fails exactly when the lengths differ or are zero,
and returns 0 (not NaN) when the lengths agree, are nonzero, and either
series is constant (zero variance). -/
theorem C1_pearson_contract (x y : List ℝ) :
    ((∃ e, Corr.pearsonCorrelation x y = Except.error e) ↔
      (x.length ≠ y.length ∨ x.length = 0)) ∧
    (x.length = y.length → x.length ≠ 0 →
      ((∃ c, ∀ v ∈ x, v = c) ∨ (∃ c, ∀ v ∈ y, v = c)) →
      Corr.pearsonCorrelation x y = Except.ok 0) := by
  constructor
  · unfold Corr.pearsonCorrelation
    split
    · next hcond => exact ⟨fun _ => hcond, fun _ => ⟨_, rfl⟩⟩
    · next hcond =>
      refine ⟨fun hex => absurd ?_ hcond, fun hx => absurd hx hcond⟩
      obtain ⟨e, hc⟩ := hex
      exact Except.noConfusion hc
  · exact pearson_const_zero x y

/-- Witness for C1: a length mismatch errors; a constant second series with
matching nonzero length yields 0. -/
theorem C1_pearson_contract_witness :
    (∃ e, Corr.pearsonCorrelation [(1:ℝ)] [] = Except.error e) ∧
      Corr.pearsonCorrelation [(1:ℝ), 2] [(3:ℝ), 3] = Except.ok 0 :=
  ⟨(C1_pearson_contract [(1:ℝ)] []).1.mpr (by simp),
    (C1_pearson_contract [(1:ℝ), 2] [(3:ℝ), 3]).2 (by simp) (by simp)
      (Or.inr ⟨3, by intro v hv; simp at hv; exact hv⟩)⟩

/-- C5: pearson of a non-constant series with itself is exactly 1, and
pearson of any series against a constant series of the same nonzero length
is exactly 0. -/
theorem C5_pearson_self_const (x y : List ℝ) (c : ℝ) :
    (¬(∃ k, ∀ v ∈ x, v = k) → Corr.pearsonCorrelation x x = Except.ok 1) ∧
    (x.length = y.length → x.length ≠ 0 → (∀ v ∈ y, v = c) →
      Corr.pearsonCorrelation x y = Except.ok 0) := by
  constructor
  · intro hnc
    have hne : x.length ≠ 0 := by
      intro h
      exact hnc ⟨0, fun v hv => absurd hv (by simp [List.length_eq_zero.mp h])⟩
    unfold Corr.pearsonCorrelation
    rw [if_neg (by push_neg; exact ⟨rfl, hne⟩)]
    unfold Corr.pearsonRaw
    have hzip : ((x.zip x).map
        (fun p => (p.1 - Corr.mean x) * (p.2 - Corr.mean x))).sum
        = (x.map (fun a => (a - Corr.mean x) ^ 2)).sum := by
      rw [Corr.zip_self, List.map_map]
      congr 1
      apply List.map_congr_left
      intro a ha
      simp [sq]
    have hs : (x.map (fun a => (a - Corr.mean x) ^ 2)).sum ≠ 0 := by
      intro h
      exact hnc ⟨Corr.mean x, (Corr.sum_sq_eq_zero_iff x (Corr.mean x)).mp h⟩
    have hs0 : 0 ≤ (x.map (fun a => (a - Corr.mean x) ^ 2)).sum := by
      apply List.sum_nonneg
      intro z hz
      obtain ⟨w, hw, hwz⟩ := List.mem_map.mp hz
      rw [← hwz]
      exact sq_nonneg _
    rw [if_neg (by push_neg; exact ⟨hs, hs⟩)]
    rw [hzip, Real.sqrt_mul_self hs0, div_self hs]
  · intro h1 h2 hc
    exact pearson_const_zero x y h1 h2 (Or.inr ⟨c, hc⟩)

/-- Witness for C5 at concrete inputs. -/
theorem C5_pearson_self_const_witness :
    Corr.pearsonCorrelation [(0:ℝ), 1] [(0:ℝ), 1] = Except.ok 1 ∧
      Corr.pearsonCorrelation [(0:ℝ), 1] [(7:ℝ), 7] = Except.ok 0 :=
  ⟨(C5_pearson_self_const [(0:ℝ), 1] [] 0).1 (by
      rintro ⟨k, hk⟩
      have h0 := hk 0 (by simp)
      have h1 := hk 1 (by simp)
      rw [← h0] at h1
      norm_num at h1),
    (C5_pearson_self_const [(0:ℝ), 1] [(7:ℝ), 7] 7).2 (by simp) (by simp)
      (by intro v hv; simp at hv; exact hv)⟩

theorem filterMap_if_eq_filter {α : Type} (p : α → Prop) [DecidablePred p] (l : List α) :
    l.filterMap (fun a => if p a then some a else none) = l.filter (fun a => p a) := by
  induction l with
  | nil => rfl
  | cons a l ih => by_cases h : p a <;> simp [h, ih]

theorem filterMap_congr_local {α β : Type} {f g : α → Option β} (l : List α)
    (h : ∀ a ∈ l, f a = g a) : l.filterMap f = l.filterMap g := by
  induction l with
  | nil => rfl
  | cons a l ih =>
    rw [List.filterMap_cons, List.filterMap_cons, h a (by simp),
      ih (fun b hb => h b (by simp [hb]))]

theorem lagRange_mem (maxLag L : ℤ) :
    L ∈ Corr.lagRange maxLag ↔ -maxLag ≤ L ∧ L ≤ maxLag := by
  unfold Corr.lagRange
  rw [List.mem_map]
  constructor
  · rintro ⟨i, hi, rfl⟩
    rw [List.mem_range] at hi
    omega
  · intro h
    refine ⟨(L + maxLag).toNat, ?_, ?_⟩
    · rw [List.mem_range]
      omega
    · omega

/-- C7: crossCorrelation emits one record per swept lag that leaves at least
one aligned pair and omits (does not zero-fill) the lags that leave none: a
record with lag L is present exactly when |L| is at most maxLag and below the
common length; each record counts its surviving pairs and carries the Pearson
coefficient of the surviving aligned slices. -/
theorem C7_crossCorrelation (x y : List ℝ) (maxLag : ℤ) (hlen : x.length = y.length) :
    ((Corr.crossCorrelation x y maxLag).map (fun r => r.lag)
        = (Corr.lagRange maxLag).filter (fun L => |L| < (x.length : ℤ))) ∧
    (∀ L : ℤ, (∃ r ∈ Corr.crossCorrelation x y maxLag, r.lag = L) ↔
        (-maxLag ≤ L ∧ L ≤ maxLag ∧ |L| < (x.length : ℤ))) ∧
    (∀ r ∈ Corr.crossCorrelation x y maxLag,
        (r.dataPoints : ℤ) = (x.length : ℤ) - |r.lag| ∧ 0 < r.dataPoints ∧
        r.correlation = if 0 ≤ r.lag
          then Corr.pearsonRaw (x.drop r.lag.toNat) (y.take (y.length - r.lag.toNat))
          else Corr.pearsonRaw (x.take (x.length - (-r.lag).toNat)) (y.drop (-r.lag).toNat)) := by
  have hmaplag : (Corr.crossCorrelation x y maxLag).map (fun r => r.lag)
      = (Corr.lagRange maxLag).filter (fun L => |L| < (x.length : ℤ)) := by
    unfold Corr.crossCorrelation
    rw [List.map_filterMap,
      ← filterMap_if_eq_filter (fun L => |L| < (x.length : ℤ)) (Corr.lagRange maxLag)]
    apply filterMap_congr_local
    intro lag hmem
    dsimp only
    rw [Corr.alignedPairs_shift_length x y lag hlen]
    by_cases hc : |lag| < (x.length : ℤ)
    · rw [Int.abs_eq_natAbs] at hc
      rw [if_pos (by omega), if_pos (by rw [Int.abs_eq_natAbs]; exact hc)]
      rfl
    · rw [Int.abs_eq_natAbs] at hc
      rw [if_neg (by omega), if_neg (by rw [Int.abs_eq_natAbs]; exact hc)]
      rfl
  refine ⟨hmaplag, ?_, ?_⟩
  · intro L
    have h1 : (∃ r ∈ Corr.crossCorrelation x y maxLag, r.lag = L) ↔
        L ∈ (Corr.crossCorrelation x y maxLag).map (fun r => r.lag) :=
      List.mem_map.symm
    rw [h1, hmaplag, List.mem_filter]
    simp only [decide_eq_true_eq]
    rw [lagRange_mem]
    exact ⟨fun ⟨⟨ha, hb⟩, hc⟩ => ⟨ha, hb, hc⟩, fun ⟨ha, hb, hc⟩ => ⟨⟨ha, hb⟩, hc⟩⟩
  · intro r hr
    unfold Corr.crossCorrelation at hr
    obtain ⟨lag, hmem, hstep⟩ := List.mem_filterMap.mp hr
    dsimp only at hstep
    split at hstep
    · next hpos =>
      injection hstep with hrec
      subst hrec
      have hL := Corr.alignedPairs_shift_length x y lag hlen
      refine ⟨?_, ?_, ?_⟩
      · dsimp only
        rw [hL, Int.abs_eq_natAbs]
        rw [hL] at hpos
        omega
      · exact hpos
      · dsimp only
        rw [Corr.alignedPairs_shift x y lag hlen]
        by_cases hsign : 0 ≤ lag
        · simp only [if_pos hsign]
          have hlx : (x.drop lag.toNat).length = (y.take (y.length - lag.toNat)).length := by
            simp only [List.length_take, List.length_drop]
            omega
          rw [List.map_fst_zip _ _ (le_of_eq hlx), List.map_snd_zip _ _ (le_of_eq hlx.symm)]
        · simp only [if_neg hsign]
          have hlx : (x.take (x.length - (-lag).toNat)).length = (y.drop (-lag).toNat).length := by
            simp only [List.length_take, List.length_drop]
            omega
          rw [List.map_fst_zip _ _ (le_of_eq hlx), List.map_snd_zip _ _ (le_of_eq hlx.symm)]
    · exact Option.noConfusion hstep

/-- Witness for C7 at x = [1,2], y = [3,4], maxLag = 5: records exist exactly
for the lags of magnitude below the length 2. -/
theorem C7_crossCorrelation_witness :
    (∃ r ∈ Corr.crossCorrelation [(1:ℝ), 2] [(3:ℝ), 4] 5, r.lag = 1) ∧
      ¬(∃ r ∈ Corr.crossCorrelation [(1:ℝ), 2] [(3:ℝ), 4] 5, r.lag = 3) := by
  have h := (C7_crossCorrelation [(1:ℝ), 2] [(3:ℝ), 4] 5 rfl).2.1
  constructor
  · exact (h 1).mpr (by norm_num)
  · intro hc
    have h3 := (h 3).mp hc
    norm_num at h3

/-! ## FTRT calculator -/

/-- Orbital constants of one planet from the static PLANETS table (the
display-only color field is omitted). -/
structure PlanetData where
  mass : ℝ
  semiMajorAxis : ℝ
  period : ℝ
  radius : ℝ

def GRAVITATIONAL_CONSTANT : ℝ := 6.674e-11

def SUN_RADIUS : ℝ := 6.96e8

def FTRT_REFERENCE_FORCE : ℝ := 1e15

/-- The PLANETS table, in JS object-key insertion order. -/
noncomputable def PLANETS : List (String × PlanetData) :=
  [("mercury", ⟨3.301e23, 57.91e9, 87.97, 2.4397e6⟩),
   ("venus", ⟨4.867e24, 108.2e9, 224.7, 6.0518e6⟩),
   ("earth", ⟨5.972e24, 149.6e9, 365.25, 6.371e6⟩),
   ("mars", ⟨6.417e23, 227.9e9, 686.98, 3.3895e6⟩),
   ("jupiter", ⟨1.898e27, 778.5e9, 4332.59, 6.9911e7⟩),
   ("saturn", ⟨5.683e26, 1433.5e9, 10759.22, 5.8232e7⟩),
   ("uranus", ⟨8.681e25, 2872.5e9, 30688.5, 2.5362e7⟩),
   ("neptune", ⟨1.024e26, 4495.1e9, 60182, 2.4622e7⟩)]

/-- The planet names, in table order. -/
noncomputable def planetNames : List String := PLANETS.map Prod.fst

/-- Embedding of calculatePlanetaryTidalForce: simplified Kepler orbit with
fixed eccentricity 0.05; unknown body degrades to 0 with a logged warning. -/
noncomputable def calculatePlanetaryTidalForce (planetName : String) (julianDay : ℝ) : ℝ :=
  match PLANETS.find? (fun p => p.1 = planetName) with
  | none => 0
  | some pr =>
      let planet := pr.2
      let meanAnomaly := 2 * Real.pi * julianDay / planet.period
      let distance := planet.semiMajorAxis * (1 + 0.05 * Real.cos meanAnomaly)
      2 * GRAVITATIONAL_CONSTANT * planet.mass * SUN_RADIUS / distance ^ 3

theorem tidal_core_pos (m a p : ℝ) (hm : 0 < m) (ha : 0 < a) (jd : ℝ) :
    0 < 2 * GRAVITATIONAL_CONSTANT * m * SUN_RADIUS
      / (a * (1 + 0.05 * Real.cos (2 * Real.pi * jd / p))) ^ 3 := by
  have hcos := Real.neg_one_le_cos (2 * Real.pi * jd / p)
  have hd : 0 < a * (1 + 0.05 * Real.cos (2 * Real.pi * jd / p)) := by nlinarith
  have hnum : 0 < 2 * GRAVITATIONAL_CONSTANT * m * SUN_RADIUS := by
    have hG : (0:ℝ) < GRAVITATIONAL_CONSTANT := by norm_num [GRAVITATIONAL_CONSTANT]
    have hR : (0:ℝ) < SUN_RADIUS := by norm_num [SUN_RADIUS]
    positivity
  exact div_pos hnum (pow_pos hd 3)

/-- A key present among the first components is found by find?, without
evaluating any concrete string comparison. -/
theorem find?_fst {β : Type} (l : List (String × β)) (a : String)
    (h : a ∈ l.map Prod.fst) :
    ∃ pr, l.find? (fun p => p.1 = a) = some pr ∧ pr ∈ l ∧ pr.1 = a := by
  induction l with
  | nil => simp at h
  | cons b l ih =>
    by_cases hb : b.1 = a
    · refine ⟨b, ?_, by simp, hb⟩
      rw [List.find?_cons_of_pos]
      simp [hb]
    · have h2 : a ∈ l.map Prod.fst := by
        simp only [List.map_cons, List.mem_cons] at h
        rcases h with h | h
        · exact absurd h.symm hb
        · exact h
      obtain ⟨pr, hfind, hmem, hname⟩ := ih h2
      refine ⟨pr, ?_, by simp [hmem], hname⟩
      rw [List.find?_cons_of_neg]
      · exact hfind
      · simp [hb]

/-- Every planet of the table has positive mass and semi-major axis. -/
theorem PLANETS_entry_pos : ∀ pr ∈ PLANETS, 0 < pr.2.mass ∧ 0 < pr.2.semiMajorAxis := by
  intro pr hpr
  simp only [PLANETS, List.mem_cons, List.not_mem_nil, or_false] at hpr
  rcases hpr with rfl|rfl|rfl|rfl|rfl|rfl|rfl|rfl <;> exact ⟨by norm_num, by norm_num⟩

/-- Each tabulated planet exerts a strictly positive force at every Julian
day: the orbital distance a(1 + 0.05 cos θ) is at least 0.95 a > 0. -/
theorem calculatePlanetaryTidalForce_pos (name : String) (jd : ℝ)
    (h : name ∈ planetNames) : 0 < calculatePlanetaryTidalForce name jd := by
  obtain ⟨pr, hfind, hmem, hname⟩ := find?_fst PLANETS name h
  unfold calculatePlanetaryTidalForce
  rw [hfind]
  obtain ⟨hm, ha⟩ := PLANETS_entry_pos pr hmem
  exact tidal_core_pos _ _ _ hm ha jd

/-- The result record of calculateFTRT; the date field models the stored
ISO string at day resolution. -/
structure FTRTResult where
  date : CalDate
  julianDay : ℤ
  totalForce : ℝ
  normalizedIndex : ℝ
  individualForces : List (String × ℝ)
  dominantPlanet : String
  dominantForcePercentage : ℝ

instance : Inhabited FTRTResult := ⟨⟨⟨0, 0, 0⟩, 0, 0, 0, [], "", 0⟩⟩

/-- The reduce((max, planet) => forces[planet] > forces[max] ? planet : max)
step: fold over the remaining keys with a running best. -/
noncomputable def reduceMaxPlanet (f : String → ℝ) : String → List String → String
  | acc, [] => acc
  | acc, p :: rest => reduceMaxPlanet f (if f p > f acc then p else acc) rest

/-- The fold keeps the first occurrence of the maximum: the input splits
around the result, every earlier key being strictly smaller and every later
key no larger. -/
theorem reduceMaxPlanet_spec (f : String → ℝ) (l : List String) (acc : String) :
    ∃ pre post, acc :: l = pre ++ reduceMaxPlanet f acc l :: post ∧
      (∀ p ∈ pre, f p < f (reduceMaxPlanet f acc l)) ∧
      (∀ p ∈ post, f p ≤ f (reduceMaxPlanet f acc l)) := by
  induction l generalizing acc with
  | nil => exact ⟨[], [], by simp [reduceMaxPlanet], by simp, by simp⟩
  | cons p rest ih =>
    rw [reduceMaxPlanet]
    by_cases hc : f p > f acc
    · rw [if_pos hc]
      obtain ⟨pre, post, heq, hpre, hpost⟩ := ih p
      have hple : f p ≤ f (reduceMaxPlanet f p rest) := by
        cases pre with
        | nil =>
          rw [List.nil_append] at heq
          rw [← (List.cons.injEq ..).mp heq |>.1]
        | cons a pre2 =>
          rw [List.cons_append] at heq
          have ha := (List.cons.injEq ..).mp heq |>.1
          exact le_of_lt (ha ▸ hpre a (by simp))
      refine ⟨acc :: pre, post, ?_, ?_, hpost⟩
      · rw [List.cons_append, ← heq]
      · intro q hq
        rcases List.mem_cons.mp hq with rfl | hq2
        · exact lt_of_lt_of_le hc hple
        · exact hpre q hq2
    · rw [if_neg hc]
      obtain ⟨pre, post, heq, hpre, hpost⟩ := ih acc
      cases pre with
      | nil =>
        rw [List.nil_append] at heq
        have hacc := (List.cons.injEq ..).mp heq |>.1
        have hrest := (List.cons.injEq ..).mp heq |>.2
        refine ⟨[], p :: post, ?_, by simp, ?_⟩
        · rw [List.nil_append, ← hacc, hrest]
        · intro q hq
          rcases List.mem_cons.mp hq with rfl | hq2
          · rw [← hacc]
            exact le_of_not_lt hc
          · exact hpost q hq2
      | cons a pre2 =>
        rw [List.cons_append] at heq
        have ha := (List.cons.injEq ..).mp heq |>.1
        have hrest := (List.cons.injEq ..).mp heq |>.2
        refine ⟨acc :: p :: pre2, post, ?_, ?_, hpost⟩
        · rw [List.cons_append, List.cons_append]
          exact congrArg (fun l => acc :: p :: l) hrest
        · intro q hq
          rcases List.mem_cons.mp hq with rfl | hq2
          · exact ha ▸ hpre a (by simp)
          · rcases List.mem_cons.mp hq2 with rfl | hq3
            · exact lt_of_le_of_lt (le_of_not_lt hc) (ha ▸ hpre a (by simp))
            · exact hpre q (by simp [hq3])

/-- Embedding of calculateFTRT.  The per-planet forces are collected in
table order; the dominant planet is the reduce over the keys; the JS reduce
with no initial value starts from the first key (the table is non-empty). -/
noncomputable def calculateFTRT (date : CalDate) : FTRTResult :=
  let julianDay := dateToJulianDay date
  let force := fun name => calculatePlanetaryTidalForce name (julianDay : ℝ)
  let forces := PLANETS.map (fun p => (p.1, force p.1))
  let totalForce := (forces.map Prod.snd).sum
  let dominantPlanet :=
    match planetNames with
    | [] => ""
    | h :: t => reduceMaxPlanet force h t
  let normalizedIndex := min (totalForce / FTRT_REFERENCE_FORCE) 1
  { date := date, julianDay := julianDay, totalForce := totalForce,
    normalizedIndex := normalizedIndex, individualForces := forces,
    dominantPlanet := dominantPlanet,
    dominantForcePercentage := force dominantPlanet / totalForce * 100 }

/-- Abbreviation: the force a named body exerts at the Julian day of a date. -/
noncomputable def planetForceAt (d : CalDate) (name : String) : ℝ :=
  calculatePlanetaryTidalForce name ((dateToJulianDay d : ℤ) : ℝ)

theorem planetNames_cons : planetNames = "mercury" :: planetNames.tail := by
  simp [planetNames, PLANETS]

/-- C2: for every calendar date, normalizedIndex is min(total/reference, 1)
and lies in [0,1]; the dominant planet is the first-encountered maximum of
individualForces; and dominantForcePercentage lies in (0,100]. -/
theorem C2_calculateFTRT_invariants (d : CalDate) :
    (calculateFTRT d).normalizedIndex
        = min ((calculateFTRT d).totalForce / FTRT_REFERENCE_FORCE) 1 ∧
    (0 ≤ (calculateFTRT d).normalizedIndex ∧ (calculateFTRT d).normalizedIndex ≤ 1) ∧
    (calculateFTRT d).individualForces = PLANETS.map (fun p => (p.1, planetForceAt d p.1)) ∧
    (∃ pre post, planetNames = pre ++ (calculateFTRT d).dominantPlanet :: post ∧
        (∀ p ∈ pre, planetForceAt d p < planetForceAt d (calculateFTRT d).dominantPlanet) ∧
        (∀ p ∈ post, planetForceAt d p ≤ planetForceAt d (calculateFTRT d).dominantPlanet)) ∧
    (∀ pr ∈ (calculateFTRT d).individualForces,
        pr.2 ≤ planetForceAt d (calculateFTRT d).dominantPlanet) ∧
    (0 < (calculateFTRT d).dominantForcePercentage ∧
      (calculateFTRT d).dominantForcePercentage ≤ 100) := by
  have hspec := reduceMaxPlanet_spec (fun name => planetForceAt d name)
    planetNames.tail "mercury"
  obtain ⟨pre, post, heq, hpre, hpost⟩ := hspec
  have hdom : (calculateFTRT d).dominantPlanet
      = reduceMaxPlanet (fun name => planetForceAt d name) "mercury" planetNames.tail := by
    simp only [calculateFTRT, planetNames, PLANETS, List.map_cons, List.map_nil]
    rfl
  have hsplit : planetNames = pre ++ (calculateFTRT d).dominantPlanet :: post := by
    rw [hdom, ← heq]
    exact planetNames_cons
  have hdommem : (calculateFTRT d).dominantPlanet ∈ planetNames := by
    rw [hsplit]
    simp
  have hdompos : 0 < planetForceAt d (calculateFTRT d).dominantPlanet :=
    calculatePlanetaryTidalForce_pos _ _ hdommem
  have hforces : (calculateFTRT d).individualForces
      = PLANETS.map (fun p => (p.1, planetForceAt d p.1)) := by
    simp only [calculateFTRT, planetForceAt]
  have hmax : ∀ pr ∈ (calculateFTRT d).individualForces,
      pr.2 ≤ planetForceAt d (calculateFTRT d).dominantPlanet := by
    intro pr hpr
    rw [hforces] at hpr
    obtain ⟨q, hq, rfl⟩ := List.mem_map.mp hpr
    have hqname : q.1 ∈ planetNames := List.mem_map.mpr ⟨q, hq, rfl⟩
    rw [hsplit] at hqname
    rcases List.mem_append.mp hqname with hmem | hmem
    · exact le_of_lt (hpre _ hmem)
    · rcases List.mem_cons.mp hmem with hq1 | hmem2
      · rw [hq1]
      · exact hpost _ hmem2
  have htotal : (calculateFTRT d).totalForce
      = (((calculateFTRT d).individualForces).map Prod.snd).sum := by
    simp only [calculateFTRT]
  have hpos_all : ∀ v ∈ ((calculateFTRT d).individualForces).map Prod.snd, 0 < v := by
    intro v hv
    rw [hforces] at hv
    obtain ⟨pr, hpr, rfl⟩ := List.mem_map.mp hv
    obtain ⟨q, hq, rfl⟩ := List.mem_map.mp hpr
    exact calculatePlanetaryTidalForce_pos _ _ (List.mem_map.mpr ⟨q, hq, rfl⟩)
  have htpos : 0 < (calculateFTRT d).totalForce := by
    rw [htotal]
    apply List.sum_pos
    · exact hpos_all
    · rw [hforces]
      simp [PLANETS]
  have hdomle : planetForceAt d (calculateFTRT d).dominantPlanet
      ≤ (calculateFTRT d).totalForce := by
    rw [htotal]
    apply List.single_le_sum (fun v hv => le_of_lt (hpos_all v hv))
    rw [hforces]
    rw [List.map_map]
    rcases List.mem_map.mp hdommem with ⟨q, hq, hqe⟩
    refine List.mem_map.mpr ⟨q, hq, ?_⟩
    simp only [Function.comp]
    rw [hqe]
  have hpct : (calculateFTRT d).dominantForcePercentage
      = planetForceAt d (calculateFTRT d).dominantPlanet / (calculateFTRT d).totalForce * 100 := by
    simp only [calculateFTRT, planetForceAt]
  have hni : (calculateFTRT d).normalizedIndex
      = min ((calculateFTRT d).totalForce / FTRT_REFERENCE_FORCE) 1 := by
    simp only [calculateFTRT]
  refine ⟨hni, ⟨?_, ?_⟩, hforces, ⟨pre, post, hsplit, hpre, hpost⟩, hmax, ?_, ?_⟩
  · rw [hni]
    apply le_min
    · apply div_nonneg (le_of_lt htpos)
      norm_num [FTRT_REFERENCE_FORCE]
    · norm_num
  · rw [hni]
    exact min_le_right _ _
  · rw [hpct]
    have := div_pos hdompos htpos
    nlinarith
  · rw [hpct]
    have hq1 : planetForceAt d (calculateFTRT d).dominantPlanet
        / (calculateFTRT d).totalForce ≤ 1 := by
      rw [div_le_one htpos]
      exact hdomle
    nlinarith [div_pos hdompos htpos]

/-- One record of the detectFTRTPeaks output. -/
structure FTRTPeak where
  date : CalDate
  julianDay : ℤ
  index : ℝ
  dominantPlanet : String
  type : String
  significance : String

/-- Embedding of detectFTRTPeaks: the loop runs i = 1 .. length-2 and pushes
a record when the value beats the threshold and both neighbours. -/
noncomputable def detectFTRTPeaks (ftrtSeries : List FTRTResult) (threshold : ℝ) :
    List FTRTPeak :=
  (List.range' 1 (ftrtSeries.length - 2)).filterMap (fun i =>
    let current := (ftrtSeries.getD i default).normalizedIndex
    let previous := (ftrtSeries.getD (i - 1) default).normalizedIndex
    let next := (ftrtSeries.getD (i + 1) default).normalizedIndex
    if current > threshold ∧ current > previous ∧ current > next then
      some { date := (ftrtSeries.getD i default).date,
             julianDay := (ftrtSeries.getD i default).julianDay,
             index := current,
             dominantPlanet := (ftrtSeries.getD i default).dominantPlanet,
             type := "ftrt_peak",
             significance := if current > 0.85 then "extreme"
               else if current > 0.75 then "high" else "moderate" }
    else none)

/-- The peak condition of the loop at position i. -/
def peakCond (s : List FTRTResult) (threshold : ℝ) (i : ℕ) : Prop :=
  (s.getD i default).normalizedIndex > threshold ∧
  (s.getD i default).normalizedIndex > (s.getD (i - 1) default).normalizedIndex ∧
  (s.getD i default).normalizedIndex > (s.getD (i + 1) default).normalizedIndex

noncomputable instance (s : List FTRTResult) (t : ℝ) : DecidablePred (peakCond s t) :=
  fun i => by unfold peakCond; infer_instance

/-- The record pushed for a peak at position i. -/
noncomputable def mkPeak (s : List FTRTResult) (i : ℕ) : FTRTPeak :=
  { date := (s.getD i default).date,
    julianDay := (s.getD i default).julianDay,
    index := (s.getD i default).normalizedIndex,
    dominantPlanet := (s.getD i default).dominantPlanet,
    type := "ftrt_peak",
    significance := if (s.getD i default).normalizedIndex > 0.85 then "extreme"
      else if (s.getD i default).normalizedIndex > 0.75 then "high" else "moderate" }

theorem filterMap_if_map {α β : Type} (p : α → Prop) [DecidablePred p] (g : α → β)
    (l : List α) :
    l.filterMap (fun a => if p a then some (g a) else none)
      = (l.filter (fun a => p a)).map g := by
  induction l with
  | nil => rfl
  | cons a l ih => by_cases h : p a <;> simp [h, ih]

/-- A six-point sample series with normalizedIndex values
0.1, 0.3, 0.6, 0.9, 0.5, 0.2. -/
noncomputable def samplePoint (k : ℤ) (v : ℝ) : FTRTResult :=
  ⟨⟨2000, 1, k⟩, k, 0, v, [], "jupiter", 0⟩

noncomputable def sampleSeries : List FTRTResult :=
  [samplePoint 0 0.1, samplePoint 1 0.3, samplePoint 2 0.6,
   samplePoint 3 0.9, samplePoint 4 0.5, samplePoint 5 0.2]

/-- C6: detectFTRTPeaks returns exactly the interior strict local maxima
above the threshold (endpoints are never peaks), each banded extreme/high/
moderate at 0.85 and 0.75; on the sample series with threshold 0.7 there is
exactly one peak, at the entry holding 0.9. -/
theorem C6_detectFTRTPeaks (s : List FTRTResult) (t : ℝ) :
    detectFTRTPeaks s t
        = ((List.range' 1 (s.length - 2)).filter (fun i => peakCond s t i)).map (mkPeak s) ∧
    (∀ i : ℕ, i ∈ List.range' 1 (s.length - 2) ↔ (0 < i ∧ i + 1 < s.length)) ∧
    (∀ pk ∈ detectFTRTPeaks s t, pk.index > t ∧
        pk.significance = (if pk.index > 0.85 then "extreme"
          else if pk.index > 0.75 then "high" else "moderate")) ∧
    detectFTRTPeaks sampleSeries 0.7
        = [⟨⟨2000, 1, 3⟩, 3, 0.9, "jupiter", "ftrt_peak", "extreme"⟩] := by
  have hform : ∀ (s2 : List FTRTResult) (t2 : ℝ), detectFTRTPeaks s2 t2
      = ((List.range' 1 (s2.length - 2)).filter
          (fun i => peakCond s2 t2 i)).map (mkPeak s2) := by
    intro s2 t2
    unfold detectFTRTPeaks
    rw [← filterMap_if_map (peakCond s2 t2) (mkPeak s2)]
    apply filterMap_congr_local
    intro i hi
    rfl
  refine ⟨hform s t, ?_, ?_, ?_⟩
  · intro i
    rw [List.mem_range'_1]
    omega
  · intro pk hpk
    rw [hform s t] at hpk
    obtain ⟨i, hi, rfl⟩ := List.mem_map.mp hpk
    have hcond : peakCond s t i := by
      have := List.mem_filter.mp hi
      simpa using this.2
    exact ⟨hcond.1, rfl⟩
  · rw [hform sampleSeries 0.7]
    have hlen : sampleSeries.length = 6 := by simp [sampleSeries]
    rw [hlen]
    have h1 : ¬ peakCond sampleSeries 0.7 1 := by
      unfold peakCond
      simp [sampleSeries, samplePoint, List.getD]
      norm_num
    have h2 : ¬ peakCond sampleSeries 0.7 2 := by
      unfold peakCond
      simp [sampleSeries, samplePoint, List.getD]
      norm_num
    have h3 : peakCond sampleSeries 0.7 3 := by
      unfold peakCond
      simp [sampleSeries, samplePoint, List.getD]
      norm_num
    have h4 : ¬ peakCond sampleSeries 0.7 4 := by
      unfold peakCond
      simp [sampleSeries, samplePoint, List.getD]
      norm_num
    have hrange : List.range' 1 (6 - 2) = [1, 2, 3, 4] := rfl
    rw [hrange]
    rw [List.filter_cons_of_neg (by simpa using h1),
      List.filter_cons_of_neg (by simpa using h2),
      List.filter_cons_of_pos (by simpa using h3),
      List.filter_cons_of_neg (by simpa using h4),
      List.filter_nil]
    simp only [List.map_cons, List.map_nil]
    have hgd : sampleSeries.getD 3 default = samplePoint 3 0.9 := rfl
    unfold mkPeak
    rw [hgd]
    unfold samplePoint
    rw [if_pos (by norm_num : (0.9 : ℝ) > 0.85)]

/-- Witness for C2 at the concrete date 2000-01-01. -/
theorem C2_calculateFTRT_invariants_witness :
    0 ≤ (calculateFTRT ⟨2000, 1, 1⟩).normalizedIndex ∧
      (calculateFTRT ⟨2000, 1, 1⟩).normalizedIndex ≤ 1 :=
  ⟨((C2_calculateFTRT_invariants ⟨2000, 1, 1⟩).2.1).1,
   ((C2_calculateFTRT_invariants ⟨2000, 1, 1⟩).2.1).2⟩

/-- Witness for C6: the sample-series conclusion extracted at the concrete
instance. -/
theorem C6_detectFTRTPeaks_witness :
    detectFTRTPeaks sampleSeries 0.7
        = [⟨⟨2000, 1, 3⟩, 3, 0.9, "jupiter", "ftrt_peak", "extreme"⟩] :=
  (C6_detectFTRTPeaks sampleSeries 0.7).2.2.2
